import Mathlib

/-!
Verification development for the gowave repository (a command-line WAV
player/recorder written in Go).  The playback side is an Elm-style update
loop (bubbletea) around a beep streamer; the record side is a hardware
capture callback feeding a bounded channel drained by an encoding loop.
The definitions below are shallow embeddings of the functions in
`src/unnamed/part_000` (player) and `src/record.go` (recorder).
-/

namespace Gowave

/-! ## Player data model (from `model` / `audioState` in part_000)

The Go `model` holds the progress component, filename, the UI `playing`
flag, the percentage `pct`, and an error slot.  The shared pause gate
`m.audio.ctrl.Paused` (a field of the beep controller, mutated by the
update function and read by the audio callback) is carried here as
`ctrlPaused`.  The streamer position/length and the `done` channel are
external state read during a tick; they are passed in as `Env`. -/

structure ProgressModel where
  width : Int
  frames : Nat
deriving DecidableEq

structure Model where
  ctrlPaused : Bool
  progress : ProgressModel
  filename : String
  playing : Bool
  pct : ℚ
  hasErr : Bool
deriving DecidableEq

/-- External state observed by the update function during a tick:
whether the non-blocking receive on `m.audio.done` succeeds, and the
streamer position and length. -/
structure Env where
  doneFired : Bool
  position : Int
  length : Int
deriving DecidableEq

/-- Messages delivered to `model.Update` (tea.KeyMsg, tickMsg,
progress.FrameMsg, tea.WindowSizeMsg). -/
inductive Msg where
  | key (s : String)
  | tick
  | frame
  | resize (width : Int)
deriving DecidableEq

/-- Commands returned by `model.Update`: `none` (nil), `quit` (tea.Quit),
`tick` (tickCmd), `frameCmd` (the command returned by progress.Update),
and `batch pct` standing for tea.Batch(m.progress.SetPercent pct,
tickCmd) — note `batch` re-arms the tick. -/
inductive Cmd where
  | none
  | quit
  | tick
  | frameCmd
  | batch (pct : ℚ)
deriving DecidableEq

/-- Observable accesses to the shared audio state, logged in the order
the Go code performs them: the non-blocking receive on `done`, the
speaker lock/unlock, reads of `streamer.Position()` and
`streamer.Len()`, and the progress update `SetPercent`. -/
inductive UAction where
  | recvDone
  | lock
  | unlock
  | readPosition
  | readLen
  | setPercent (pct : ℚ)
deriving DecidableEq

structure UpdateResult where
  model : Model
  cmd : Cmd
  acts : List UAction
deriving DecidableEq

/-- Shallow embedding of `model.Update` (part_000 lines 118-179).
The `tick` branch mirrors the source: (1) non-blocking check of
`m.audio.done`, returning tea.Quit if it fired; (2) if
`m.audio.ctrl.Paused`, return tickCmd only; (3) otherwise read the
position under speaker.Lock/Unlock, read the length, set
`m.pct = position/length` only when `length > 0`, and return
tea.Batch(SetPercent, tickCmd).  The space key flips the gate and the
`playing` flag in the handler itself and returns a nil command. -/
def update (env : Env) (m : Model) : Msg → UpdateResult
  | Msg.key s =>
    if s = "q" ∨ s = "ctrl+c" ∨ s = "esc" then
      ⟨m, Cmd.quit, []⟩
    else if s = " " then
      let p := !m.ctrlPaused
      ⟨{ m with ctrlPaused := p, playing := !p }, Cmd.none, []⟩
    else
      ⟨m, Cmd.none, []⟩
  | Msg.tick =>
    if env.doneFired then
      ⟨m, Cmd.quit, [UAction.recvDone]⟩
    else if m.ctrlPaused then
      ⟨m, Cmd.tick, [UAction.recvDone]⟩
    else
      let pct := if 0 < env.length then (env.position : ℚ) / (env.length : ℚ) else m.pct
      ⟨{ m with pct := pct }, Cmd.batch pct,
        [UAction.recvDone, UAction.lock, UAction.readPosition, UAction.unlock,
          UAction.readLen, UAction.setPercent pct]⟩
  | Msg.frame =>
    ⟨{ m with progress := { m.progress with frames := m.progress.frames + 1 } },
      Cmd.frameCmd, []⟩
  | Msg.resize w =>
    let wd := w - 10
    ⟨{ m with progress := { m.progress with width := if wd > 80 then 80 else wd } },
      Cmd.none, []⟩

/-- The pure tail of `initialModel` (part_000 lines 88-100): the beep
controller starts unpaused, `playing` starts true, `pct` starts 0. -/
def initialModelState (filename : String) : Model :=
  { ctrlPaused := false
    progress := { width := 0, frames := 0 }
    filename := filename
    playing := true
    pct := 0
    hasErr := false }

end Gowave

namespace Gowave

/-- Claim C1: on a tick, `model.Update` first does the non-blocking
completion check and quits if it fired; otherwise, when paused, it only
re-arms the tick, reading no position and touching no UI state;
otherwise it reads the position between speaker.Lock and
speaker.Unlock, sets `pct = position/length` exactly when `length > 0`
(leaving `pct` unchanged otherwise), updates the progress UI via
SetPercent and re-arms the tick — in that order of precedence. -/
theorem c1_tick_precedence (env : Env) (m : Model) :
    (env.doneFired = true →
      update env m Msg.tick = ⟨m, Cmd.quit, [UAction.recvDone]⟩) ∧
    (env.doneFired = false → m.ctrlPaused = true →
      update env m Msg.tick = ⟨m, Cmd.tick, [UAction.recvDone]⟩) ∧
    (env.doneFired = false → m.ctrlPaused = false →
      update env m Msg.tick =
        ⟨{ m with pct := if 0 < env.length then (env.position : ℚ) / (env.length : ℚ) else m.pct },
          Cmd.batch (if 0 < env.length then (env.position : ℚ) / (env.length : ℚ) else m.pct),
          [UAction.recvDone, UAction.lock, UAction.readPosition, UAction.unlock,
            UAction.readLen,
            UAction.setPercent (if 0 < env.length then (env.position : ℚ) / (env.length : ℚ) else m.pct)]⟩) := by
  refine ⟨fun hd => ?_, fun hd hp => ?_, fun hd hp => ?_⟩
  · simp [update, hd]
  · simp [update, hd, hp]
  · simp [update, hd, hp]

/-- Witness for C1 at a concrete unpaused model with done unfired,
position 5 of length 10. -/
theorem c1_tick_precedence_witness :
    update { doneFired := false, position := 5, length := 10 }
        (initialModelState "a.wav") Msg.tick =
      ⟨{ initialModelState "a.wav" with
          pct := if 0 < (10 : Int) then ((5 : Int) : ℚ) / ((10 : Int) : ℚ)
                  else (initialModelState "a.wav").pct },
        Cmd.batch (if 0 < (10 : Int) then ((5 : Int) : ℚ) / ((10 : Int) : ℚ)
                  else (initialModelState "a.wav").pct),
        [UAction.recvDone, UAction.lock, UAction.readPosition, UAction.unlock,
          UAction.readLen,
          UAction.setPercent (if 0 < (10 : Int) then ((5 : Int) : ℚ) / ((10 : Int) : ℚ)
                  else (initialModelState "a.wav").pct)]⟩ :=
  (c1_tick_precedence { doneFired := false, position := 5, length := 10 }
    (initialModelState "a.wav")).2.2 rfl rfl

end Gowave

namespace Gowave

/-- Modelled from the spec: the beep.Ctrl pause gate (library code, not
in this repository).  "PlaybackGate ... Invariant: when paused, the
callback must emit silence (or withhold consumption) without advancing
position."  One hardware-callback step advances the position by the
buffer size only when the gate is unpaused. -/
def ctrlCallbackStep (paused : Bool) (position advance : Int) : Int :=
  if paused then position else position + advance

/-- Claim C7: the space key toggles the pause gate synchronously inside
the key handler — the returned model already carries the flipped gate
and flipped `playing` flag and the returned command is nil, so nothing
waits for the next tick; toggling twice restores the gate (and the
`playing` flag); and a hardware-callback step with the gate paused does
not advance the position. -/
theorem c7_space_toggle (env env2 : Env) (m : Model) :
    ((update env m (Msg.key " ")).model.ctrlPaused = !m.ctrlPaused ∧
      (update env m (Msg.key " ")).model.playing = m.ctrlPaused ∧
      (update env m (Msg.key " ")).cmd = Cmd.none) ∧
    ((update env2 (update env m (Msg.key " ")).model (Msg.key " ")).model.ctrlPaused
        = m.ctrlPaused ∧
      (update env2 (update env m (Msg.key " ")).model (Msg.key " ")).model.playing
        = !m.ctrlPaused) ∧
    (∀ position advance : Int, ctrlCallbackStep true position advance = position) := by
  refine ⟨⟨?_, ?_, ?_⟩, ⟨?_, ?_⟩, fun position advance => rfl⟩ <;>
    simp [update]

/-- The invariant of claim C10: the UI `playing` flag is the negation
of the shared pause gate. -/
def playingInv (m : Model) : Prop :=
  m.playing = !m.ctrlPaused

/-- Claim C10: `playing = !ctrl.Paused` holds in the initial model
(playing := true, gate unpaused) and is preserved by `model.Update` on
every message: only the space handler mutates either field and it
assigns them together. -/
theorem c10_playing_inv (filename : String) :
    playingInv (initialModelState filename) ∧
    ∀ (env : Env) (m : Model) (msg : Msg),
      playingInv m → playingInv (update env m msg).model := by
  constructor
  · simp [playingInv, initialModelState]
  · intro env m msg h
    cases msg with
    | key s =>
      by_cases hq : s = "q" ∨ s = "ctrl+c" ∨ s = "esc"
      · simpa [update, hq, playingInv] using h
      · by_cases hs : s = " "
        · simp [update, hq, hs, playingInv]
        · simpa [update, hq, hs, playingInv] using h
    | tick =>
      by_cases hd : env.doneFired
      · simpa [update, hd, playingInv] using h
      · by_cases hp : m.ctrlPaused
        · simpa [update, hd, hp, playingInv] using h
        · simpa [update, hd, hp, playingInv] using h
    | frame => simpa [update, playingInv] using h
    | resize w => simpa [update, playingInv] using h

/-- Witness for C10: the invariant holds in the initial model and after
one tick step from it. -/
theorem c10_playing_inv_witness :
    playingInv (initialModelState "b.wav") ∧
    playingInv (update { doneFired := false, position := 0, length := 1 }
      (initialModelState "b.wav") Msg.tick).model :=
  ⟨(c10_playing_inv "b.wav").1,
    (c10_playing_inv "b.wav").2 { doneFired := false, position := 0, length := 1 }
      (initialModelState "b.wav") Msg.tick (c10_playing_inv "b.wav").1⟩

end Gowave

namespace Gowave

/-! ## Capture pipeline (from `runRecord` in src/record.go)

The hardware callback copies each buffer and does a non-blocking send
into `audioChan` (capacity 1024); on a full channel the incoming frame
is dropped.  The consumer loop selects between `sigChan` (stop) and
`audioChan` (frame): a frame is converted and written to the encoder, a
stop breaks out of the loop; afterwards `device.Uninit()` runs and then
`encoder.Close()`.  Frames are modelled by `Nat` identifiers. -/

/-- Capacity of `audioChan` (`make(chan []byte, 1024)`). -/
def capQueueCap : Nat := 1024

/-- The callback's non-blocking send: append when the channel has room,
drop the incoming frame (leaving the queue unchanged) when it is full. -/
def enqueue (cap : Nat) (q : List Nat) (f : Nat) : List Nat :=
  if q.length < cap then q ++ [f] else q

/-- State of the capture pipeline: the channel contents, the frames
written to the encoder so far, whether a stop signal is pending in
`sigChan`, and whether the consumer has left the loop. -/
structure CapState where
  queue : List Nat
  written : List Nat
  stopPending : Bool
  stopped : Bool
deriving DecidableEq

/-- Events of an interleaved execution: a hardware-callback delivery, the
arrival of SIGINT/SIGTERM on `sigChan`, and the two ways the consumer's
select can resolve.  A select resolution whose channel is not ready is a
no-op (the select would not have chosen it). -/
inductive CapEvent where
  | produce (f : Nat)
  | sigStop
  | consumeFrame
  | consumeStop
deriving DecidableEq

/-- One step of the capture pipeline. -/
def capStep (s : CapState) : CapEvent → CapState
  | CapEvent.produce f => { s with queue := enqueue capQueueCap s.queue f }
  | CapEvent.sigStop => { s with stopPending := true }
  | CapEvent.consumeFrame =>
    if s.stopped then s
    else
      match s.queue with
      | [] => s
      | f :: rest => { s with queue := rest, written := s.written ++ [f] }
  | CapEvent.consumeStop =>
    if s.stopped ∨ !s.stopPending then s
    else { s with stopped := true, stopPending := false }

def capInit : CapState :=
  { queue := [], written := [], stopPending := false, stopped := false }

def capRun (tr : List CapEvent) : CapState :=
  tr.foldl capStep capInit

/-- The frames produced by the hardware callback along a trace, in
production order. -/
def producedOf : List CapEvent → List Nat
  | [] => []
  | CapEvent.produce f :: tr => f :: producedOf tr
  | _ :: tr => producedOf tr

theorem producedOf_cons (e : CapEvent) (tr : List CapEvent) :
    producedOf (e :: tr) = producedOf [e] ++ producedOf tr := by
  cases e <;> simp [producedOf]

theorem capStep_written_queue_sublist (s : CapState) (e : CapEvent) :
    ((capStep s e).written ++ (capStep s e).queue).Sublist
      ((s.written ++ s.queue) ++ producedOf [e]) := by
  cases e with
  | produce f =>
    by_cases hlen : s.queue.length < capQueueCap
    · simp [capStep, enqueue, hlen, producedOf]
    · simp only [capStep, enqueue, hlen, if_neg, producedOf]
      exact List.sublist_append_left _ _
  | sigStop => simp [capStep, producedOf]
  | consumeFrame =>
    by_cases hst : s.stopped
    · simp [capStep, hst, producedOf]
    · cases hq : s.queue with
      | nil => simp [capStep, hst, hq, producedOf]
      | cons f rest => simp [capStep, hst, hq, producedOf]
  | consumeStop =>
    simp only [capStep, producedOf, List.append_nil]
    split
    · exact List.Sublist.refl _
    · exact List.Sublist.refl _

theorem capFold_written_queue_sublist (tr : List CapEvent) (s : CapState) :
    ((tr.foldl capStep s).written ++ (tr.foldl capStep s).queue).Sublist
      ((s.written ++ s.queue) ++ producedOf tr) := by
  induction tr generalizing s with
  | nil => simp [producedOf]
  | cons e tr ih =>
    have h1 := ih (capStep s e)
    have h2 := (capStep_written_queue_sublist s e).append_right (producedOf tr)
    have h3 := h1.trans h2
    simpa [producedOf_cons e tr, List.append_assoc] using h3

/-- Claim C3: the callback's enqueue never blocks — on a full queue the
incoming (newest) frame is dropped and the queue is unchanged, otherwise
the frame is appended — and, for every interleaving, the sequence of
frames the consumer writes (dequeued in FIFO order from the head) is a
strictly ordered, possibly gap-containing subsequence of the produced
sequence. -/
theorem c3_bounded_lossy_fifo :
    (∀ (q : List Nat) (f : Nat), capQueueCap ≤ q.length →
      enqueue capQueueCap q f = q) ∧
    (∀ (q : List Nat) (f : Nat), q.length < capQueueCap →
      enqueue capQueueCap q f = q ++ [f]) ∧
    (∀ tr : List CapEvent, ((capRun tr).written).Sublist (producedOf tr)) := by
  refine ⟨fun q f h => ?_, fun q f h => ?_, fun tr => ?_⟩
  · simp [enqueue, Nat.not_lt.mpr h]
  · simp [enqueue, h]
  · have h1 := capFold_written_queue_sublist tr capInit
    have h2 : ((capRun tr).written).Sublist ((capRun tr).written ++ (capRun tr).queue) :=
      List.sublist_append_left _ _
    simpa [capRun, capInit] using h2.trans h1

/-- Witness for C3: a full queue of 1024 frames drops the newcomer, a
queue of one frame appends it, and a produce-consume trace yields a
written sequence that is a subsequence of the produced one. -/
theorem c3_bounded_lossy_fifo_witness :
    enqueue capQueueCap (List.replicate 1024 0) 5 = List.replicate 1024 0 ∧
    enqueue capQueueCap [1] 2 = [1] ++ [2] ∧
    ((capRun [CapEvent.produce 9, CapEvent.consumeFrame]).written).Sublist
      (producedOf [CapEvent.produce 9, CapEvent.consumeFrame]) :=
  ⟨c3_bounded_lossy_fifo.1 (List.replicate 1024 0) 5
      (by rw [List.length_replicate]; exact Nat.le_refl 1024),
    c3_bounded_lossy_fifo.2.1 [1] 2 (by simp [capQueueCap]),
    c3_bounded_lossy_fifo.2.2 [CapEvent.produce 9, CapEvent.consumeFrame]⟩

end Gowave

namespace Gowave

theorem capStep_stopped_written (s : CapState) (e : CapEvent)
    (h : s.stopped = true) :
    (capStep s e).written = s.written ∧ (capStep s e).stopped = true := by
  cases e with
  | produce f => simp [capStep, h]
  | sigStop => simp [capStep, h]
  | consumeFrame => simp [capStep, h]
  | consumeStop => simp [capStep, h]

theorem capFold_stopped_written (tr : List CapEvent) (s : CapState)
    (h : s.stopped = true) :
    (tr.foldl capStep s).written = s.written ∧
      (tr.foldl capStep s).stopped = true := by
  induction tr generalizing s with
  | nil => exact ⟨rfl, h⟩
  | cons e tr ih =>
    have hs := capStep_stopped_written s e h
    have := ih (capStep s e) hs.2
    exact ⟨this.1.trans hs.1, this.2⟩

/-- Counterexample to claim C2: frame 7 is accepted into the capture
queue, then the stop signal arrives and the consumer's select resolves
the stop case (legal in Go when both channels are ready).  The consumer
leaves the loop with the frame still queued: nothing is ever written to
the encoder, so a frame accepted before the stop signal is lost. -/
theorem c2_stop_drops_queued_frames_cex :
    (capRun [CapEvent.produce 7]).queue = [7] ∧
    (capRun [CapEvent.produce 7, CapEvent.sigStop, CapEvent.consumeStop]).stopped = true ∧
    (capRun [CapEvent.produce 7, CapEvent.sigStop, CapEvent.consumeStop]).written = [] := by
  refine ⟨?_, ?_, ?_⟩ <;> rfl

/-- Claim C2 amended: frames the consumer dequeued before processing the
stop are written (they are exactly `written`); frames still queued when
the stop is processed are discarded; and once the stop has been
processed, no further frame is appended to the encoder, whatever events
follow. -/
theorem c2_no_write_after_stop (tr extra : List CapEvent)
    (h : (capRun tr).stopped = true) :
    (capRun (tr ++ extra)).written = (capRun tr).written ∧
      (capRun (tr ++ extra)).stopped = true := by
  have heq : capRun (tr ++ extra) = extra.foldl capStep (capRun tr) := by
    simp [capRun, List.foldl_append]
  rw [heq]
  exact capFold_stopped_written extra (capRun tr) h

/-- Witness for the amended C2: after a processed stop, a later produce
and select resolution write nothing more. -/
theorem c2_no_write_after_stop_witness :
    (capRun ([CapEvent.sigStop, CapEvent.consumeStop] ++
        [CapEvent.produce 3, CapEvent.consumeFrame])).written =
      (capRun [CapEvent.sigStop, CapEvent.consumeStop]).written ∧
    (capRun ([CapEvent.sigStop, CapEvent.consumeStop] ++
        [CapEvent.produce 3, CapEvent.consumeFrame])).stopped = true :=
  c2_no_write_after_stop [CapEvent.sigStop, CapEvent.consumeStop]
    [CapEvent.produce 3, CapEvent.consumeFrame] (by rfl)

/-- Actions `runRecord` performs on the encoder and device after the
device has been started: the consumer's writes, then (after the loop)
`device.Uninit()` and then `encoder.Close()` (record.go lines 124-130,
straight-line code after the loop). -/
inductive RecAction where
  | write (f : Nat)
  | deviceUninit
  | encoderClose
deriving DecidableEq

/-- The encoder/device action trace of `runRecord` for a given
interleaving: all consumer writes in order, then the finalization
sequence. -/
def recordRun (tr : List CapEvent) : List RecAction :=
  ((capRun tr).written).map RecAction.write ++
    [RecAction.deviceUninit, RecAction.encoderClose]

theorem count_deviceUninit_map_write (l : List Nat) :
    (l.map RecAction.write).count RecAction.deviceUninit = 0 := by
  rw [List.count_eq_zero]
  intro h
  rcases List.mem_map.mp h with ⟨f, _, hf⟩
  cases hf

theorem count_encoderClose_map_write (l : List Nat) :
    (l.map RecAction.write).count RecAction.encoderClose = 0 := by
  rw [List.count_eq_zero]
  intro h
  rcases List.mem_map.mp h with ⟨f, _, hf⟩
  cases hf

/-- Claim C6: in every execution of `runRecord`, the device is stopped
exactly once, the encoder (whose Close patches the size header) is
closed exactly once, every encoder write precedes the device stop, and
the encoder close comes only after the device stop. -/
theorem c6_finalize_once_after_stop (tr : List CapEvent) :
    (recordRun tr).count RecAction.deviceUninit = 1 ∧
    (recordRun tr).count RecAction.encoderClose = 1 ∧
    ∃ pre, recordRun tr = pre ++ [RecAction.deviceUninit, RecAction.encoderClose] ∧
      ∀ a ∈ pre, ∃ f, a = RecAction.write f := by
  refine ⟨?_, ?_, ((capRun tr).written).map RecAction.write, rfl, ?_⟩
  · simp [recordRun, List.count_append, count_deviceUninit_map_write]
  · simp [recordRun, List.count_append, count_encoderClose_map_write]
  · intro a ha
    rcases List.mem_map.mp ha with ⟨f, _, hf⟩
    exact ⟨f, hf.symm⟩

/-- Witness for C6 on the concrete trace producing and consuming frame 4
before the stop. -/
theorem c6_finalize_once_after_stop_witness :
    (recordRun [CapEvent.produce 4, CapEvent.consumeFrame,
        CapEvent.sigStop, CapEvent.consumeStop]).count RecAction.deviceUninit = 1 ∧
    (recordRun [CapEvent.produce 4, CapEvent.consumeFrame,
        CapEvent.sigStop, CapEvent.consumeStop]).count RecAction.encoderClose = 1 ∧
    ∃ pre, recordRun [CapEvent.produce 4, CapEvent.consumeFrame,
        CapEvent.sigStop, CapEvent.consumeStop] =
          pre ++ [RecAction.deviceUninit, RecAction.encoderClose] ∧
      ∀ a ∈ pre, ∃ f, a = RecAction.write f :=
  c6_finalize_once_after_stop
    [CapEvent.produce 4, CapEvent.consumeFrame, CapEvent.sigStop, CapEvent.consumeStop]

end Gowave

namespace Gowave

/-! ## Sample conversion (record.go lines 102-107)

`val := int16(binary.LittleEndian.Uint16(data[i*2 : i*2+2]))` followed
by `intData[i] = int(val)`: two little-endian bytes form an unsigned
16-bit value, reinterpreted as a signed int16, then sign-extended to
`int`.  Bytes are modelled as naturals below 256. -/

/-- `binary.LittleEndian.Uint16` on two bytes. -/
def leUint16 (lo hi : Nat) : Nat := lo + 256 * hi

/-- Go's `int16(u)` reinterpretation of a uint16 value, then `int(val)`
sign extension: values at or above 2^15 wrap to negatives. -/
def toInt16 (u : Nat) : Int := if u < 32768 then (u : Int) else (u : Int) - 65536

/-- The conversion loop of `runRecord`: `intData := make([]int,
len(data)/2)` and one sign-extended sample per byte pair. -/
def bytesToSamples (data : List Nat) : List Int :=
  (List.range (data.length / 2)).map fun i =>
    toInt16 (leUint16 (data.getD (2 * i) 0) (data.getD (2 * i + 1) 0))

theorem bytesToSamples_length (data : List Nat) :
    (bytesToSamples data).length = data.length / 2 := by
  simp [bytesToSamples]

theorem toInt16_spec (u : Nat) (hu : u < 65536) :
    -32768 ≤ toInt16 u ∧ toInt16 u < 32768 ∧ (toInt16 u) % 65536 = (u : Int) := by
  unfold toInt16
  split_ifs with h
  · exact ⟨by omega, by omega, by omega⟩
  · exact ⟨by omega, by omega, by omega⟩

/-- Claim C5: the output has one sample per byte pair, and sample `i` is
exactly the sign extension of the little-endian 16-bit value formed from
bytes `2i` and `2i+1`: it lies in the int16 range and is congruent to
`data[2i] + 256*data[2i+1]` modulo 2^16 — no clipping or scaling. -/
theorem c5_sign_extension (data : List Nat) :
    (bytesToSamples data).length = data.length / 2 ∧
    ∀ i, i < data.length / 2 → (∀ b ∈ data, b < 256) →
      (bytesToSamples data).getD i 0 =
        toInt16 (leUint16 (data.getD (2 * i) 0) (data.getD (2 * i + 1) 0)) ∧
      -32768 ≤ (bytesToSamples data).getD i 0 ∧
      (bytesToSamples data).getD i 0 < 32768 ∧
      ((bytesToSamples data).getD i 0) % 65536 =
        ((data.getD (2 * i) 0 : Int) + 256 * (data.getD (2 * i + 1) 0 : Int)) := by
  refine ⟨bytesToSamples_length data, fun i hi hb => ?_⟩
  have hlen : i < (bytesToSamples data).length := by
    rw [bytesToSamples_length]; exact hi
  have hget : (bytesToSamples data).getD i 0 =
      toInt16 (leUint16 (data.getD (2 * i) 0) (data.getD (2 * i + 1) 0)) := by
    rw [List.getD_eq_getElem _ _ hlen]
    simp [bytesToSamples, List.getElem_map, List.getElem_range]
  have h2i : 2 * i < data.length := by omega
  have h2i1 : 2 * i + 1 < data.length := by omega
  have hlo : data.getD (2 * i) 0 < 256 := by
    rw [List.getD_eq_getElem _ _ h2i]
    exact hb _ (data.getElem_mem h2i)
  have hhi : data.getD (2 * i + 1) 0 < 256 := by
    rw [List.getD_eq_getElem _ _ h2i1]
    exact hb _ (data.getElem_mem h2i1)
  have hu : leUint16 (data.getD (2 * i) 0) (data.getD (2 * i + 1) 0) < 65536 := by
    unfold leUint16; omega
  have hspec := toInt16_spec _ hu
  refine ⟨hget, ?_, ?_, ?_⟩
  · rw [hget]; exact hspec.1
  · rw [hget]; exact hspec.2.1
  · rw [hget, hspec.2.2]
    unfold leUint16
    push_cast
    ring

/-- Witness for C5 on the concrete buffer [0x34, 0x12, 0xFF, 0xFF]:
sample 1 is the sign extension of 0xFFFF. -/
theorem c5_sign_extension_witness :
    (bytesToSamples [52, 18, 255, 255]).getD 1 0 =
      toInt16 (leUint16 ([52, 18, 255, 255].getD (2 * 1) 0)
        ([52, 18, 255, 255].getD (2 * 1 + 1) 0)) ∧
    -32768 ≤ (bytesToSamples [52, 18, 255, 255]).getD 1 0 ∧
    (bytesToSamples [52, 18, 255, 255]).getD 1 0 < 32768 ∧
    ((bytesToSamples [52, 18, 255, 255]).getD 1 0) % 65536 =
      (([52, 18, 255, 255].getD (2 * 1) 0 : Int) +
        256 * ([52, 18, 255, 255].getD (2 * 1 + 1) 0 : Int)) :=
  (c5_sign_extension [52, 18, 255, 255]).2 1 (by decide) (by decide)

end Gowave

namespace Gowave

/-- Capacity of the completion channel: `done := make(chan bool)` in
`initialModel` (part_000 line 76) creates an unbuffered Go channel. -/
def doneChanCapacity : Nat := 0

/-- Go channel-send semantics for the completion send `done <- true`: a
send on a channel of capacity `cap` currently holding `buffered` values
blocks unless a receiver is waiting or buffer space is free. -/
def chanSendBlocks (cap buffered : Nat) (receiverWaiting : Bool) : Bool :=
  !receiverWaiting && decide (cap ≤ buffered)

/-- Number of sends on `done` in the completion callback body (part_000
line 79): a single `done <- true`, and beep.Seq invokes the trailing
callback once, after the controlled streamer drains. -/
def completionCallbackSends : Nat := 1

/-- Counterexample to claim C4: the completion channel is created with
capacity 0, not 1, and a send on it does block when no receiver is
listening — the sending audio-thread callback is not protected by a
buffer. -/
theorem c4_done_capacity_cex :
    doneChanCapacity ≠ 1 ∧
    chanSendBlocks doneChanCapacity 0 false = true := by decide

/-- Claim C4 amended: the completion signal is an unbuffered
(capacity-0) channel on which the exhaustion callback performs exactly
one send; that send blocks precisely while no receiver is ready, so it
is released only by rendezvous with the poll loop's non-blocking
receive rather than by buffer space. -/
theorem c4_done_chan_amended :
    doneChanCapacity = 0 ∧
    completionCallbackSends = 1 ∧
    (∀ r : Bool, chanSendBlocks doneChanCapacity 0 r = !r) := by decide

/-- Output streams of the process. -/
inductive StdStream where
  | stdout
  | stderr
deriving DecidableEq

/-- Observable behavior of a startup abort: which stream the message is
printed to, the process exit code, and whether a UI was shown first. -/
structure AbortBehavior where
  stream : StdStream
  exitCode : Nat
  uiShown : Bool
deriving DecidableEq

/-- `runPlayer` when `initialModel` fails (open, decode, or speaker-init
error; part_000 lines 245-249): `fmt.Printf` writes the message to
standard output, then `os.Exit(1)`; `tea.NewProgram` is never reached,
so no UI is shown. -/
def playerStartupAbort : AbortBehavior :=
  { stream := StdStream.stdout, exitCode := 1, uiShown := false }

/-- `runRecord` when context/device/file initialization fails
(record.go lines 26-72): `panic(err)`, which the Go runtime prints to
standard error before exiting with status 2; record mode has no UI. -/
def recordStartupAbort : AbortBehavior :=
  { stream := StdStream.stderr, exitCode := 2, uiShown := false }

/-- Counterexample to claim C8: a failed `initialModel` (for example a
missing input file in play mode) is reported via `fmt.Printf` on
standard output, not standard error. -/
theorem c8_startup_stream_cex :
    playerStartupAbort.stream ≠ StdStream.stderr := by decide

/-- Claim C8 amended: every startup error aborts before any UI is shown
and exits non-zero; record-mode errors panic to standard error (status
2), while play-mode initialization errors are printed to standard
output (status 1). -/
theorem c8_startup_abort_amended :
    (playerStartupAbort.uiShown = false ∧ playerStartupAbort.exitCode ≠ 0 ∧
      playerStartupAbort.stream = StdStream.stdout) ∧
    (recordStartupAbort.uiShown = false ∧ recordStartupAbort.exitCode ≠ 0 ∧
      recordStartupAbort.stream = StdStream.stderr) := by decide

/-- Lock-discipline check: every `readPosition` in a trace must occur
while the speaker lock depth is positive. -/
def readsUnderLock : List UAction → Nat → Bool
  | [], _ => true
  | UAction.lock :: tr, d => readsUnderLock tr (d + 1)
  | UAction.unlock :: tr, d => readsUnderLock tr (d - 1)
  | UAction.readPosition :: tr, d => decide (0 < d) && readsUnderLock tr d
  | _ :: tr, d => readsUnderLock tr d

/-- Audio accesses performed by `model.View` (part_000 line 194): it
calls `m.audio.streamer.Position()` directly, with no
`speaker.Lock`/`speaker.Unlock` around it. -/
def viewAudioActions : List UAction := [UAction.readPosition]

/-- Claim C9 evaluated on the code: the tick branch of `model.Update`
reads the position with the speaker lock held, but `model.View` reads
the position at lock depth 0 — outside the lock — contradicting the
code's own comment that position access requires the lock. -/
theorem c9_view_reads_unlocked :
    readsUnderLock (update { doneFired := false, position := 0, length := 1 }
        (initialModelState "c.wav") Msg.tick).acts 0 = true ∧
    readsUnderLock viewAudioActions 0 = false := by decide

end Gowave
